import Mathlib

/-!
Shallow embedding of the homebridge-television-universal-control plugin:
the serial FIFO request/response channel (src/protocols/serial.ts), the
LIRC keyed-command sequencer (src/protocols/lirc.ts), and the Television
accessory's dispatcher and state resolvers (src/platformAccessory.ts).
JavaScript strings are `String`, numbers are `Nat`/`Int`, callbacks are
modelled by explicit event logs, and the single-threaded event loop by
explicit transition functions driven by arrival schedules.
-/

/- ### JavaScript string primitives used by the source -/

/-- Decide whether the first character list begins the second
    (the core of JS String.startsWith). -/
def leadsChars : List Char → List Char → Bool
  | [], _ => true
  | _ :: _, [] => false
  | a :: as, b :: bs => a == b && leadsChars as bs

/-- Substring containment on character lists (the core of JS String.includes). -/
def hasSubstrChars (pat : List Char) : List Char → Bool
  | [] => leadsChars pat []
  | h :: t => leadsChars pat (h :: t) || hasSubstrChars pat t

/-- JS `s.includes(pat)`. -/
def jsIncludes (s pat : String) : Bool := hasSubstrChars pat.data s.data

/-- JS `s.startsWith(pat)`. -/
def jsStartsWith (s pat : String) : Bool := leadsChars pat.data s.data

/-- JS `s.replace(pat, rep)` with a plain-string pattern replaces only the
    first occurrence (and the whole string stays unchanged when the pattern
    does not occur). -/
def replaceFirstChars (pat rep : List Char) : List Char → List Char
  | [] => if leadsChars pat [] then rep else []
  | h :: t =>
    if leadsChars pat (h :: t) then rep ++ (h :: t).drop pat.length
    else h :: replaceFirstChars pat rep t

/-- JS `s.replace(pat, rep)` for plain-string patterns. -/
def jsReplaceFirst (s pat rep : String) : String :=
  ⟨replaceFirstChars pat.data rep.data s.data⟩

/-- Whitespace recognised by the JS trim/parseInt model (the ASCII cases). -/
def isJsSpace (c : Char) : Bool :=
  c == ' ' || c == '\t' || c == '\n' || c == '\r'

/-- JS `s.trim()` restricted to ASCII whitespace. -/
def jsTrim (s : String) : String :=
  ⟨((s.data.dropWhile isJsSpace).reverse.dropWhile isJsSpace).reverse⟩

/-- Longest leading run of decimal digits. -/
def takeDigits : List Char → List Char
  | [] => []
  | c :: t => if c.isDigit then c :: takeDigits t else []

/-- Numeric value of a digit run. -/
def digitsToNat (ds : List Char) : Nat :=
  ds.foldl (fun a c => a * 10 + (c.toNat - 48)) 0

/-- JS `parseInt(s)` in base 10: skip leading whitespace, optional sign,
    then the longest digit run; `none` models NaN. -/
def jsParseInt (s : String) : Option Int :=
  match s.data.dropWhile isJsSpace with
  | '-' :: rest =>
    match takeDigits rest with
    | [] => none
    | ds => some (-(digitsToNat ds : Int))
  | '+' :: rest =>
    match takeDigits rest with
    | [] => none
    | ds => some (digitsToNat ds : Int)
  | l =>
    match takeDigits l with
    | [] => none
    | ds => some (digitsToNat ds : Int)

/- ### LIRC protocol (src/protocols/lirc.ts) -/

/-- Reserved-key marker, lirc.ts line 4: `const DELAY_IDENTIFIER = 'DELAY|'`. -/
def DELAY_IDENTIFIER : String := "DELAY|"

/-- Constructor fields of one LircProtocol instance (lirc.ts 7-14). -/
structure LircProtocol where
  host : String
  port : Nat
  remote : String
  delay : Nat
  timeout : Nat
deriving DecidableEq, Repr

/-- Observable effect of LircProtocol.sendCommand on one key (lirc.ts 27-62):
    either a pure pause for the parsed milliseconds (JS parseInt; `none`
    models NaN) with no network activity, or a transient connection writing
    the given wire command. -/
inductive LircAction where
  | delay (ms : Option Int)
  | network (wire : String)
deriving DecidableEq, Repr

/-- Key dispatch of LircProtocol.sendCommand (lirc.ts 32-56): a key starting
    with DELAY_IDENTIFIER only pauses for
    `parseInt(key.replace(DELAY_IDENTIFIER, ''))` milliseconds and resolves;
    any other key opens a connection and writes `SEND_ONCE <remote> <key>`. -/
def sendCommandAction (p : LircProtocol) (key : String) : LircAction :=
  if jsStartsWith key DELAY_IDENTIFIER then
    .delay (jsParseInt (jsReplaceFirst key DELAY_IDENTIFIER ""))
  else
    .network ("SEND_ONCE " ++ p.remote ++ " " ++ key)

/-- Fate of one key's promise: resolution, or rejection with an error. -/
inductive KeyResult where
  | ok
  | err (e : String)
deriving DecidableEq, Repr

/-- Resolution of one sendCommand promise: a delay key always resolves
    (`setTimeout(resolve, ...)`, lirc.ts 36); each network key's fate
    (connect-callback success, or timeout/socket-error rejection,
    lirc.ts 39-60) is supplied by the environment oracle `net`. -/
def keyResult (p : LircProtocol) (net : String → KeyResult) (key : String) : KeyResult :=
  match sendCommandAction p key with
  | .delay _ => .ok
  | .network _ => net key

/-- LircProtocol.sendCommands (lirc.ts 16-25): the keys.reduce promise chain
    starts key N+1 only after key N resolved and short-circuits on the first
    rejection. Returns the keys attempted, in order, together with the final
    fate of the chain (`none` = resolved, `some e` = rejected with `e`). -/
def lircSendCommandsRun (p : LircProtocol) (net : String → KeyResult) :
    List String → List String × Option String
  | [] => ([], none)
  | k :: ks =>
    match keyResult p net k with
    | .ok =>
      let r := lircSendCommandsRun p net ks
      (k :: r.1, r.2)
    | .err e => ([k], some e)

/- ### Serial protocol (class SerialProtocol)

The repository carries two revisions of the SerialProtocol class. The one
embedded here is the revision with a per-channel configurable response
window (`responseTimeout`), whose constructor signature matches the call
`new SerialProtocol(path, options, log, serialInterface.timeout || 30)` in
platformAccessory.ts: its timeout handler delivers the timeout Error and
directly advances the queue, leaving the busy flag set while commands
remain. In the older revision the window is hardcoded to 500ms and the
timeout handler additionally clears the busy flag. -/

/-- One queued command (SerialProtocolCommand): the raw payload plus a
    numeric identity standing for its callback closure. -/
structure SCommand where
  id : Nat
  command : String
deriving DecidableEq, Repr

/-- Payload passed to a command's callback: a decoded line, or the timeout
    Error whose message carries the command text and the configured window
    (`${command.trim()} timed out after ${responseTimeout}ms. Skipping`). -/
inductive SPayload where
  | line (data : String)
  | timeoutErr (command : String) (ms : Nat)
deriving DecidableEq, Repr

/-- Mutable state of one SerialProtocol instance plus its observable logs:
    `writes` records port.write calls, `events` records callback
    invocations (callback identity, payload) in invocation order. -/
structure SerialState where
  queue : List SCommand
  busy : Bool
  current : Option SCommand
  timerArmed : Bool
  responseTimeout : Nat
  writes : List String
  events : List (Nat × SPayload)
deriving DecidableEq, Repr

/-- SerialProtocol.processQueue: shift the queue; when empty, clear busy;
    otherwise make the head current, write its payload to the port and arm
    the response timer for the configured window. -/
def processQueue (s : SerialState) : SerialState :=
  match s.queue with
  | [] => { s with busy := false }
  | next :: rest =>
    { s with
      queue := rest
      current := some next
      writes := s.writes ++ [next.command]
      timerArmed := true }

/-- The parser's data handler: stop the timer; a line with no in-flight
    command is ignored; otherwise invoke the current command's callback with
    the line, clear the slot, and advance the queue. -/
def handleResponse (s : SerialState) (d : String) : SerialState :=
  let s := { s with timerArmed := false }
  match s.current with
  | none => s
  | some c =>
    processQueue
      { s with
        events := s.events ++ [(c.id, .line d)]
        current := none }

/-- Expiry of the armed response timer: if still busy with an in-flight
    command, deliver the timeout Error to its callback and advance the
    queue; the in-flight slot is not cleared by this path. -/
def timerFire (s : SerialState) : SerialState :=
  if s.timerArmed then
    let s := { s with timerArmed := false }
    if s.busy then
      match s.current with
      | some c =>
        processQueue
          { s with events := s.events ++ [(c.id, .timeoutErr c.command s.responseTimeout)] }
      | none => s
    else s
  else s

/-- SerialProtocol.send: push the command; if busy, return, else mark busy
    and start processing. -/
def serialSend (s : SerialState) (c : SCommand) : SerialState :=
  let s := { s with queue := s.queue ++ [c] }
  if s.busy then s
  else processQueue { s with busy := true }

/-- Freshly constructed SerialProtocol with the given configured response
    window. -/
def serialInit (t : Nat) : SerialState :=
  ⟨[], false, none, false, t, [], []⟩

/-- Enqueue a batch of commands in order. -/
def sendAll (s : SerialState) (cs : List SCommand) : SerialState :=
  cs.foldl serialSend s

/-- One environment step for the in-flight command: a decoded response line
    arriving before the window (`some d`), or no line arriving so the armed
    timer fires (`none`). -/
def deliver (s : SerialState) (o : Option String) : SerialState :=
  match o with
  | some d => handleResponse s d
  | none => timerFire s

/-- Run a whole arrival schedule. -/
def deliverAll (s : SerialState) (os : List (Option String)) : SerialState :=
  os.foldl deliver s

/-- Expected callback record for one command under its scheduled fate. -/
def payloadOf (t : Nat) (c : SCommand) (o : Option String) : Nat × SPayload :=
  match o with
  | some d => (c.id, .line d)
  | none => (c.id, .timeoutErr c.command t)

/-- Expected callback log for a schedule pairing each command with its fate. -/
def payloadsOf (t : Nat) (l : List (SCommand × Option String)) : List (Nat × SPayload) :=
  l.map (fun x => payloadOf t x.1 x.2)

/- ### Television dispatcher (platformAccessory.ts, sendCommands 551-639) -/

/-- One serial command group of an action's Command (platformAccessory.ts
    17-20): a target interface name and its raw command strings. -/
structure SerialGroup where
  interface : String
  commands : List String
deriving DecidableEq, Repr

/-- One lirc leaf of an action's Command (platformAccessory.ts 21-24). -/
structure LircGroup where
  name : String
  keys : List String
deriving DecidableEq, Repr

/-- One command group of an action (the Command interface, platformAccessory
    16-25). A JS-absent array and an empty array both skip the inner
    forEach bodies, and `this.protocols.serial`/`this.protocols.lirc` are
    always-present (hence truthy) objects, so absent arrays are modelled as
    empty lists. -/
structure ActionCommand where
  serial : List SerialGroup
  lirc : List LircGroup
deriving DecidableEq, Repr

/-- Leaf count of one command group: the first forEach pass of sendCommands
    (platformAccessory 563-572) increments per raw serial command and per
    lirc entry, regardless of whether the named channel exists. -/
def groupLeafCount (c : ActionCommand) : Nat :=
  (c.serial.map (fun sg => sg.commands.length)).sum + c.lirc.length

/-- Total up-front leaf count (`commandCounter`) of an action. -/
def countLeaves : List ActionCommand → Nat
  | [] => 0
  | c :: rest => groupLeafCount c + countLeaves rest

deriving instance DecidableEq for Except

/-- The CommandResponse accumulator (platformAccessory 27-36): serial pushes
    carry the interface name and either the data line (`Except.ok`) or the
    Error (`Except.error`); lirc pushes carry the name and `null`
    (`Option.none`) on success or the Error on rejection. -/
structure ResponseSet where
  serial : List (String × Except String String)
  lirc : List (String × Option String)
deriving DecidableEq, Repr

/-- Dispatcher state: the shared countdown (an Int, since the double
    decrement on serial errors can drive it below zero), the accumulated
    responses, and the log of `callback(responses)` invocations with the
    snapshot passed to each. -/
structure DispatchState where
  counter : Int
  responses : ResponseSet
  fires : List ResponseSet
deriving DecidableEq, Repr

/-- The `done` closure of sendCommands (platformAccessory 558-561):
    decrement the countdown and report whether it reached exactly zero. -/
def doneStep (s : DispatchState) : DispatchState × Bool :=
  let s := { s with counter := s.counter - 1 }
  (s, s.counter == 0)

/-- The recurring `if (done()) callback(responses)` step. -/
def fireIfDone (s : DispatchState) : DispatchState :=
  let r := doneStep s
  if r.2 then { r.1 with fires := r.1.fires ++ [r.1.responses] } else r.1

/-- A leaf operation handed to a channel during the dispatch pass. -/
inductive Pending where
  | serialLeaf (interface : String) (raw : String)
  | lircLeaf (name : String) (keys : List String)
deriving DecidableEq, Repr

/-- Dispatch pass over one command's serial groups (platformAccessory
    576-604): a known interface gets one pending leaf per raw command (with
    the literal backslash-r escape expanded); an unknown interface is logged
    and runs done() once for the whole group, pushing no outcome. -/
def dispatchSerialGroups (serialNames : List String) :
    List SerialGroup → DispatchState → DispatchState × List Pending
  | [], s => (s, [])
  | sg :: rest, s =>
    if serialNames.contains sg.interface then
      let r := dispatchSerialGroups serialNames rest s
      (r.1,
        sg.commands.map (fun raw => .serialLeaf sg.interface (jsReplaceFirst raw "\\r" "\r")) ++ r.2)
    else
      dispatchSerialGroups serialNames rest (fireIfDone s)

/-- Dispatch pass over one command's lirc leaves (platformAccessory
    606-637): a truthy name naming a known protocol becomes a pending leaf;
    an unknown name is only logged — no done(), no outcome; a falsy (empty)
    name does nothing at all. -/
def dispatchLircGroups (lircNames : List String) (gs : List LircGroup) : List Pending :=
  gs.foldr
    (fun lg acc =>
      if lg.name != "" && lircNames.contains lg.name then .lircLeaf lg.name lg.keys :: acc
      else acc)
    []

/-- Dispatch pass over one command group: serial block, then lirc block. -/
def dispatchCommand (serialNames lircNames : List String) (c : ActionCommand)
    (s : DispatchState) : DispatchState × List Pending :=
  let r := dispatchSerialGroups serialNames c.serial s
  (r.1, r.2 ++ dispatchLircGroups lircNames c.lirc)

/-- Dispatch pass over the whole action, in declaration order. -/
def dispatchAll (serialNames lircNames : List String) :
    List ActionCommand → DispatchState → DispatchState × List Pending
  | [], s => (s, [])
  | c :: rest, s =>
    let r := dispatchCommand serialNames lircNames c s
    let r2 := dispatchAll serialNames lircNames rest r.1
    (r2.1, r.2 ++ r2.2)

/-- The synchronous part of sendCommands: count the leaves, then run the
    dispatch pass from the initial state. -/
def dispatchPhase (serialNames lircNames : List String) (cmds : List ActionCommand) :
    DispatchState × List Pending :=
  dispatchAll serialNames lircNames cmds ⟨(countLeaves cmds : Int), ⟨[], []⟩, []⟩

/-- Asynchronous resolution delivered for one pending leaf. -/
inductive Resolution where
  | serial (interface : String) (result : Except String String)
  | lirc (name : String) (result : Option String)
deriving DecidableEq, Repr

/-- Completion callback body for one resolved leaf. A serial leaf
    (platformAccessory 582-596) runs done() in the Error branch and then
    unconditionally pushes and runs done() again — so an erroring serial
    leaf decrements the countdown twice. A lirc leaf (612-631) pushes its
    outcome and runs done() once in both the then and the catch branch. -/
def resolveLeaf (s : DispatchState) (r : Resolution) : DispatchState :=
  match r with
  | .serial iface res =>
    match res with
    | .error e =>
      let s := fireIfDone s
      let s :=
        { s with responses := { s.responses with serial := s.responses.serial ++ [(iface, .error e)] } }
      fireIfDone s
    | .ok d =>
      let s :=
        { s with responses := { s.responses with serial := s.responses.serial ++ [(iface, .ok d)] } }
      fireIfDone s
  | .lirc name res =>
    let s :=
      { s with responses := { s.responses with lirc := s.responses.lirc ++ [(name, res)] } }
    fireIfDone s

/-- Whole observable run of Television.sendCommands: the synchronous
    dispatch phase followed by an arrival schedule of leaf resolutions. -/
def tvSendCommandsRun (serialNames lircNames : List String) (cmds : List ActionCommand)
    (arrivals : List Resolution) : DispatchState × List Pending :=
  let p := dispatchPhase serialNames lircNames cmds
  (arrivals.foldl resolveLeaf p.1, p.2)

/-- A resolution that decrements the countdown exactly once: anything except
    a serial Error (which decrements twice). -/
def goodRes : Resolution → Bool
  | .serial _ (.error _) => false
  | _ => true

/- ### Television state resolvers (platformAccessory.ts 286-497) -/

/-- Per-interface boolean status query config (getStatus.power or
    getStatus.mute, platformAccessory 38-52). -/
structure BoolStatusCfg where
  command : String
  onResponse : String
  offResponse : String
deriving DecidableEq, Repr

/-- One configured serial interface of the accessory, restricted to the
    fields the resolvers read (platformAccessory 54-60). -/
structure IfaceCfg where
  name : String
  power : Option BoolStatusCfg
  mute : Option BoolStatusCfg
  input : Option String
deriving DecidableEq, Repr

/-- Reply delivered to one status query's serial callback. -/
inductive Reply where
  | err (msg : String)
  | data (s : String)
deriving DecidableEq, Repr

/-- Per-response body of getActive (platformAccessory 332-350): every reply
    overwrites `isOn` — an Error gives false, a reply matching the on or off
    pattern gives whether it matches the on pattern, and a reply matching
    neither is logged and gives false. The previous accumulated value is
    never read. -/
def powerStep (cfg : BoolStatusCfg) (isOn : Bool) (r : Reply) : Bool :=
  match r with
  | .err _ => false
  | .data d =>
    if jsIncludes d cfg.onResponse || jsIncludes d cfg.offResponse then jsIncludes d cfg.onResponse
    else false

/-- Counting fold shared by getActive and getMute: starting from the query
    count and the initial accumulator, each arrival updates the accumulator
    by `step` and decrements the countdown; when it reaches exactly zero the
    callback is invoked with the current accumulator. Returns the final
    (countdown, accumulator, callback log). -/
def boolQueryFold (step : BoolStatusCfg → Bool → Reply → Bool) (n : Nat) (init : Bool)
    (arrivals : List (BoolStatusCfg × Reply)) : Int × Bool × List Bool :=
  arrivals.foldl
    (fun st a =>
      let v := step a.1 st.2.1 a.2
      let counter := st.1 - 1
      if counter == 0 then (counter, v, st.2.2 ++ [v]) else (counter, v, st.2.2))
    ((n : Int), init, [])

/-- Observable run of getActive (platformAccessory 310-356): the commands
    written to the queried interfaces and the callback invocations. The
    guarding `if (interfacesToQuery)` tests an array object, which is always
    truthy in JS, so the else branch `callback(null, this.states.power)` is
    unreachable and the cached value parameter is never read; the callback
    only fires when the countdown, initialised to the query count, reaches
    zero inside done(). -/
def getActiveRun (ifaces : List IfaceCfg) (arrivals : List (BoolStatusCfg × Reply))
    (cachedPower : Bool) : List String × List Bool :=
  let toQuery := ifaces.filterMap (fun i => i.power)
  let sends := toQuery.map (fun c => c.command)
  let fin := boolQueryFold powerStep toQuery.length true arrivals
  (sends, fin.2.2)

/-- Per-response body of getMute (platformAccessory 474-490): unlike
    getActive, an Error or a mismatching reply leaves `muted` unchanged;
    only a reply matching the on or off pattern overwrites it. -/
def muteStep (cfg : BoolStatusCfg) (muted : Bool) (r : Reply) : Bool :=
  match r with
  | .err _ => muted
  | .data d =>
    if jsIncludes d cfg.onResponse || jsIncludes d cfg.offResponse then jsIncludes d cfg.onResponse
    else muted

/-- Observable run of getMute (platformAccessory 451-497), same always-true
    array-truthiness guard and countdown structure as getActive, with the
    accumulator starting at false. -/
def getMuteRun (ifaces : List IfaceCfg) (arrivals : List (BoolStatusCfg × Reply))
    (cachedMute : Bool) : List String × List Bool :=
  let toQuery := ifaces.filterMap (fun i => i.mute)
  let sends := toQuery.map (fun c => c.command)
  let fin := boolQueryFold muteStep toQuery.length false arrivals
  (sends, fin.2.2)

/- ### Television input resolver (getActiveIdentifier, platformAccessory 376-449) -/

/-- Input config relevant to the resolver: `getStatus.serial` is a list of
    (interface name, expected response substring) pairs, or absent
    (platformAccessory 62-72). -/
structure InputCfg where
  getStatusSerial : Option (List (String × String))
deriving DecidableEq, Repr

/-- JS object property read on the currentInput map: later assignments win,
    a missing key reads undefined (`none`). -/
def lookupJs (m : List (String × String)) (k : String) : Option String :=
  (m.reverse.find? (fun p => p.1 == k)).map (fun p => p.2)

/-- Population of currentInput from each queried interface's reply
    (platformAccessory 443-448): an Error records the empty string, data
    records the trimmed line. -/
def currentInputMap (results : List (String × Reply)) : List (String × String) :=
  results.map (fun r => (r.1, match r.2 with | .err _ => "" | .data d => jsTrim d))

/-- Validity scan of one input's expectations (platformAccessory 404-409):
    `currentInput[expectation.interface].includes(expectation.response)`
    must hold for each; reading a key absent from currentInput makes
    `.includes` a property access on undefined, an uncaught TypeError
    (`Except.error`). A failing inclusion clears isValid but the scan
    continues, so a later absent key still throws. -/
def evalValid (cim : List (String × String)) : List (String × String) → Except Unit Bool
  | [] => .ok true
  | e :: rest =>
    match lookupJs cim e.1 with
    | none => .error ()
    | some s =>
      match evalValid cim rest with
      | .error x => .error x
      | .ok v => .ok (jsIncludes s e.2 && v)

/-- The possibleInputs accumulation (platformAccessory 399-414): every input
    carrying a getStatus.serial array (even an empty one) is evaluated; its
    index is pushed when the scan left isValid true. -/
def collectValidInputs (cim : List (String × String)) :
    List InputCfg → Nat → Except Unit (List Nat)
  | [], _ => .ok []
  | inp :: rest, i =>
    match inp.getStatusSerial with
    | none => collectValidInputs cim rest (i + 1)
    | some exps =>
      match evalValid cim exps with
      | .error x => .error x
      | .ok true =>
        match collectValidInputs cim rest (i + 1) with
        | .error x => .error x
        | .ok l => .ok (i :: l)
      | .ok false => collectValidInputs cim rest (i + 1)

/-- The choice among possible inputs (platformAccessory 416-438), returning
    (callback value, new states.input). In the ambiguous branch the source
    tests `this.states.input in possibleInputs`: the JS `in` operator on an
    array tests property keys, i.e. array indices, so the test is whether
    the cached index is smaller than the length of possibleInputs — not
    whether it is a member. -/
def resolveInputChoice (possibleInputs : List Nat) (stateInput : Nat) : Nat × Nat :=
  if possibleInputs.length != 0 then
    if possibleInputs.length > 1 then
      if stateInput < possibleInputs.length then (stateInput, stateInput)
      else (possibleInputs.headD 0, possibleInputs.headD 0)
    else (possibleInputs.headD 0, possibleInputs.headD 0)
  else (stateInput, stateInput)

/-- The done() body of getActiveIdentifier once every queried interface has
    answered (platformAccessory 394-440): build currentInput, collect the
    valid inputs, then choose. An `Except.error` is the uncaught TypeError
    escaping the callback. -/
def getActiveIdentifierResolve (inputs : List InputCfg) (results : List (String × Reply))
    (stateInput : Nat) : Except Unit (Nat × Nat) :=
  match collectValidInputs (currentInputMap results) inputs 0 with
  | .error x => .error x
  | .ok possible => .ok (resolveInputChoice possible stateInput)

/- ### Television setActive (platformAccessory 286-295) -/

/-- A JavaScript primitive as it flows through the accessory's power path.
    HomeKit delivers the Active characteristic value as a number (0 or 1),
    while the cached `states.power` can hold a boolean: it is initialised
    to `false` (platformAccessory 107) and every completed getActive poll
    writes the boolean `isOn` (line 326); a completed setActive stores the
    request itself (`this.states.power = value as boolean` is only a
    type-level cast, the runtime value stays a number). -/
inductive JsPrim where
  | num (n : Nat)
  | boolean (b : Bool)
deriving DecidableEq, Repr

/-- JS truthiness of such a primitive (`value ? ... : ...`): a number is
    truthy unless it is 0, a boolean is its own truth value. -/
def jsTruthy : JsPrim → Bool
  | .num n => n != 0
  | .boolean b => b

/-- Cached last-known state record of the accessory (platformAccessory
    92-96, 106-110); the power slot holds whatever JS primitive was last
    stored there. -/
structure TvStates where
  power : JsPrim
  mute : Bool
  input : Nat
deriving DecidableEq, Repr

/-- setActive: choose the on or off command set by the request's
    truthiness; dispatch it (returned as `some commands`; the HomeKit
    callback is reachable solely through that dispatch's completion) and
    overwrite the cached power with the requested value exactly when
    `value !== this.states.power`. The source's `!==` is JS strict
    comparison: primitives of different types are never strictly equal, so
    a numeric request never equals a boolean cache entry and the guard then
    passes even when the two denote the same power state. Strict equality
    on primitives is equality of the `JsPrim` values. -/
def setActiveRun (value : JsPrim) (powerOnCmds powerOffCmds : List ActionCommand)
    (st : TvStates) : TvStates × Option (List ActionCommand) :=
  let commands := if jsTruthy value then powerOnCmds else powerOffCmds
  if value != st.power then ({ st with power := value }, some commands)
  else (st, none)

/- ### Concrete demonstration configurations -/

/-- A four-input configuration in which, against `resultsDemo`, exactly the
    inputs at indices 1 and 3 are valid. -/
def inputsDemo : List InputCfg :=
  [⟨some [("AVR", "X0")]⟩, ⟨some [("AVR", "V1")]⟩, ⟨none⟩, ⟨some [("AVR", "V1")]⟩]

/-- The single queried interface's reply for the demonstration. -/
def resultsDemo : List (String × Reply) := [("AVR", .data "V1")]

/-- A demonstration LircProtocol instance. -/
def lircDemo : LircProtocol := ⟨"host", 8765, "tv", 0, 500⟩

/-- Every serial group of the action targets a configured serial protocol. -/
def allSerialKnown (serialNames : List String) (cmds : List ActionCommand) : Bool :=
  cmds.all (fun c => c.serial.all (fun sg => serialNames.contains sg.interface))

/-- Every lirc leaf of the action has a truthy name targeting a configured
    lirc protocol. -/
def allLircKnown (lircNames : List String) (cmds : List ActionCommand) : Bool :=
  cmds.all (fun c => c.lirc.all (fun lg => lg.name != "" && lircNames.contains lg.name))

/-- Number of lirc leaves with a falsy name or an unknown protocol name:
    these are counted by the first pass of sendCommands but never run done(). -/
def badLircCount (lircNames : List String) : List ActionCommand → Nat
  | [] => 0
  | c :: rest =>
    (c.lirc.filter (fun lg => lg.name == "" || !(lircNames.contains lg.name))).length +
      badLircCount lircNames rest

/-- Every per-channel expectation of every input references a key present in
    the currentInput map. -/
def allRefsPresent (cim : List (String × String)) (inputs : List InputCfg) : Bool :=
  inputs.all (fun inp => (inp.getStatusSerial.getD []).all (fun e => (lookupJs cim e.1).isSome))

/- ### Helper lemmas -/

/-- A pattern begins any list it is appended to. -/
theorem leadsChars_self_append (pat r : List Char) : leadsChars pat (pat ++ r) = true := by
  induction pat with
  | nil => rfl
  | cons a as ih => simp [leadsChars, ih]

/-- Replacing a matched occurrence at the head drops exactly the pattern. -/
theorem replaceFirstChars_head (pat rep l : List Char) (h : leadsChars pat l = true) :
    replaceFirstChars pat rep l = rep ++ l.drop pat.length := by
  cases l with
  | nil => simp [replaceFirstChars, h]
  | cons x xs => simp [replaceFirstChars, h]

/-- C8 (amended core): a key formed by the DELAY marker and any suffix takes
    the pure-delay branch with the parsed suffix. -/
theorem sendCommandAction_delay_marker (p : LircProtocol) (rest : String) :
    sendCommandAction p ("DELAY|" ++ rest) = .delay (jsParseInt rest) := by
  have hdata : ("DELAY|" ++ rest).data = "DELAY|".data ++ rest.data := String.data_append ..
  have hstart : jsStartsWith ("DELAY|" ++ rest) "DELAY|" = true := by
    show leadsChars "DELAY|".data ("DELAY|" ++ rest).data = true
    rw [hdata]
    exact leadsChars_self_append _ _
  have hrepl : jsReplaceFirst ("DELAY|" ++ rest) "DELAY|" "" = rest := by
    show String.mk (replaceFirstChars "DELAY|".data "".data ("DELAY|" ++ rest).data) = rest
    rw [hdata, replaceFirstChars_head _ _ _ (leadsChars_self_append _ _)]
    cases rest with
    | mk l => simp
  show (if jsStartsWith ("DELAY|" ++ rest) "DELAY|" then
      LircAction.delay (jsParseInt (jsReplaceFirst ("DELAY|" ++ rest) "DELAY|" ""))
    else LircAction.network ("SEND_ONCE " ++ p.remote ++ " " ++ ("DELAY|" ++ rest))) =
    LircAction.delay (jsParseInt rest)
  rw [hstart, hrepl]
  simp

/-- C8 (counterexample): a key of the spec's claimed reserved form
    "delay:<integer>" does not start with the code's DELAY marker, so it is
    sent over the wire as a regular key. -/
theorem delay_colon_key_goes_to_network :
    sendCommandAction lircDemo "delay:100" = .network "SEND_ONCE tv delay:100" := by decide

/-- C9: the sendCommands promise chain attempts keys in declaration order
    (the attempted list is a prefix of the key list); it resolves only when
    every key was attempted and resolved; and it rejects with the first
    failing key's error, never attempting the keys after it. -/
theorem lirc_sendCommands_sequential_failfast (p : LircProtocol) (net : String → KeyResult)
    (keys : List String) :
    (∃ rest, keys = (lircSendCommandsRun p net keys).1 ++ rest) ∧
    ((lircSendCommandsRun p net keys).2 = none →
      (lircSendCommandsRun p net keys).1 = keys ∧
        ∀ k ∈ keys, keyResult p net k = .ok) ∧
    (∀ e, (lircSendCommandsRun p net keys).2 = some e →
      ∃ pre k post, keys = pre ++ k :: post ∧
        (lircSendCommandsRun p net keys).1 = pre ++ [k] ∧
        (∀ k' ∈ pre, keyResult p net k' = .ok) ∧ keyResult p net k = .err e) := by
  induction keys with
  | nil =>
    refine ⟨⟨[], rfl⟩, fun _ => ⟨rfl, by simp⟩, fun e he => ?_⟩
    simp [lircSendCommandsRun] at he
  | cons k ks ih =>
    rcases hk : keyResult p net k with _ | e0
    · refine ⟨?_, ?_, ?_⟩
      · obtain ⟨rest, hrest⟩ := ih.1
        exact ⟨rest, by simp [lircSendCommandsRun, hk]; exact hrest⟩
      · intro hnone
        simp [lircSendCommandsRun, hk] at hnone
        obtain ⟨h1, h2⟩ := ih.2.1 hnone
        refine ⟨by simp [lircSendCommandsRun, hk, h1], ?_⟩
        intro k' hk'
        rcases List.mem_cons.mp hk' with h | h
        · exact h ▸ hk
        · exact h2 k' h
      · intro e he
        simp [lircSendCommandsRun, hk] at he
        obtain ⟨pre, kk, post, h1, h2, h3, h4⟩ := ih.2.2 e he
        refine ⟨k :: pre, kk, post, by simp [h1], by simp [lircSendCommandsRun, hk, h2], ?_, h4⟩
        intro k' hk'
        rcases List.mem_cons.mp hk' with h | h
        · exact h ▸ hk
        · exact h3 k' h
    · refine ⟨⟨ks, by simp [lircSendCommandsRun, hk]⟩, ?_, ?_⟩
      · intro hnone
        simp [lircSendCommandsRun, hk] at hnone
      · intro e he
        simp [lircSendCommandsRun, hk] at he
        refine ⟨[], k, ks, by simp, by simp [lircSendCommandsRun, hk], by simp, ?_⟩
        rw [hk, he]

/-- C9 (witness): with every network key succeeding, the three-key sequence
    of the spec's example is attempted in full, in order. -/
theorem lirc_sendCommands_sequential_failfast_witness :
    (lircSendCommandsRun lircDemo (fun _ => .ok) ["KEY_A", "DELAY|100", "KEY_B"]).1 =
      ["KEY_A", "DELAY|100", "KEY_B"] :=
  ((lirc_sendCommands_sequential_failfast lircDemo (fun _ => .ok)
    ["KEY_A", "DELAY|100", "KEY_B"]).2.1 (by decide)).1

/-- C10 (counterexample): requesting power on (HomeKit Active = 1, a
    number) while the cached power holds the boolean true written by a
    completed getActive poll still dispatches the on-command set and
    overwrites the cache with the number 1 — the strict `!==` guard
    compares a number against a boolean and passes even though both denote
    power on, refuting the claimed frame property. -/
theorem setActive_numeric_vs_boolean_counterexample :
    setActiveRun (.num 1) [⟨[⟨"s", ["PWR ON"]⟩], []⟩] [] ⟨.boolean true, false, 0⟩ =
      (⟨.num 1, false, 0⟩, some [⟨[⟨"s", ["PWR ON"]⟩], []⟩]) := by decide

/-- C10 (amended): setActive dispatches nothing, leaves the state record
    untouched and never reaches the callback exactly when the requested
    value is strictly equal — same JS type and value — to the cached power
    (possible only after a previous setActive stored that same number); on
    any strict mismatch, including a numeric request against a boolean
    cache denoting the same power state, it dispatches the command set
    chosen by the request's truthiness and overwrites the cached power with
    the requested value. -/
theorem setActive_strict_guard_amended (value : JsPrim)
    (onCmds offCmds : List ActionCommand) (st : TvStates) :
    (value = st.power → setActiveRun value onCmds offCmds st = (st, none)) ∧
    (value ≠ st.power →
      setActiveRun value onCmds offCmds st =
        ({ st with power := value },
          some (if jsTruthy value then onCmds else offCmds))) := by
  constructor
  · intro h
    simp [setActiveRun, h]
  · intro h
    have hb : (value != st.power) = true := by
      simpa using h
    simp [setActiveRun, hb]

/-- C10 (amended, witness): a power-off request finding the cache already
    holding the number 0 stored by an earlier power-off request is
    suppressed: nothing is dispatched and the record is unchanged. -/
theorem setActive_strict_guard_amended_witness :
    setActiveRun (.num 0) [] [] ⟨.num 0, false, 0⟩ = (⟨.num 0, false, 0⟩, none) :=
  (setActive_strict_guard_amended (.num 0) [] [] ⟨.num 0, false, 0⟩).1 rfl

/-- C3: evaluating the input resolver on the spec's own scenario (valid
    inputs at indices 1 and 3): with Last-Known 3 the code returns 1 and
    overwrites Last-Known with 1 (the JS `in` test `3 in [1, 3]` checks
    array indices and fails), and with Last-Known 0 it returns 0 unchanged
    (`0 in [1, 3]` succeeds as an index) — not 3 and 1 as claimed. -/
theorem inputResolver_in_operator_eval :
    getActiveIdentifierResolve inputsDemo resultsDemo 3 = .ok (1, 1) ∧
    getActiveIdentifierResolve inputsDemo resultsDemo 0 = .ok (0, 0) ∧
    collectValidInputs (currentInputMap resultsDemo) inputsDemo 0 = .ok [1, 3] := by decide

/-- C4: evaluating getActive with two power-status channels whose replies
    arrive as OFF then ON: the resolved overall power is true (on), because
    each reply overwrites the accumulator — an off report does not dominate. -/
theorem getActive_off_not_dominant_eval :
    getActiveRun
      [⟨"a", some ⟨"POW?\r", "ON", "OFF"⟩, none, none⟩,
        ⟨"b", some ⟨"POW?\r", "ON", "OFF"⟩, none, none⟩]
      [(⟨"POW?\r", "ON", "OFF"⟩, .data "OFF"), (⟨"POW?\r", "ON", "OFF"⟩, .data "ON")]
      false =
      (["POW?\r", "POW?\r"], [true]) := by decide

/-- C5: evaluating getActive and getMute on a device whose single serial
    interface has no status query for the property: zero transport calls are
    issued, but the callback is never invoked either — the cached value is
    not returned, because the array-truthiness guard makes the cached-value
    branch dead and done() is never called. -/
theorem boolStatus_zero_channels_eval :
    getActiveRun [⟨"dev", none, none, none⟩] [] true = ([], []) ∧
    getMuteRun [⟨"dev", none, none, none⟩] [] true = ([], []) := by decide

/-- Enqueueing onto a busy channel only appends to the queue. -/
theorem sendAll_busy_append :
    ∀ (cs : List SCommand) (s : SerialState), s.busy = true →
      sendAll s cs = { s with queue := s.queue ++ cs } := by
  intro cs
  induction cs with
  | nil => intro s h; simp [sendAll]
  | cons c cs ih =>
    intro s h
    have h1 : serialSend s c = { s with queue := s.queue ++ [c] } := by
      simp [serialSend, h]
    have h2 : sendAll s (c :: cs) = sendAll (serialSend s c) cs := by
      simp [sendAll, List.foldl_cons]
    rw [h2, h1, ih _ (by simp [h])]
    simp

/-- Draining run of the serial channel: from a busy state with command `c`
    in flight, its timer armed, and the commands of `rest` queued, a
    schedule giving each command its fate delivers each callback exactly
    once, in order, with the scheduled payload, and leaves the channel idle
    with an empty queue. -/
theorem serial_drain_run (t : Nat) :
    ∀ (rest : List (SCommand × Option String)) (c : SCommand) (o : Option String)
      (ws : List String) (ev : List (Nat × SPayload)),
      (deliverAll ⟨rest.map Prod.fst, true, some c, true, t, ws, ev⟩
          (o :: rest.map Prod.snd)).events = ev ++ payloadOf t c o :: payloadsOf t rest ∧
      (deliverAll ⟨rest.map Prod.fst, true, some c, true, t, ws, ev⟩
          (o :: rest.map Prod.snd)).busy = false ∧
      (deliverAll ⟨rest.map Prod.fst, true, some c, true, t, ws, ev⟩
          (o :: rest.map Prod.snd)).queue = [] := by
  intro rest
  induction rest with
  | nil =>
    intro c o ws ev
    cases o <;>
      simp [deliverAll, deliver, handleResponse, timerFire, processQueue, payloadOf, payloadsOf]
  | cons hd tl ih =>
    intro c o ws ev
    have hstep :
        deliver ⟨hd.1 :: tl.map Prod.fst, true, some c, true, t, ws, ev⟩ o =
          ⟨tl.map Prod.fst, true, some hd.1, true, t, ws ++ [hd.1.command],
            ev ++ [payloadOf t c o]⟩ := by
      cases o <;>
        simp [deliver, handleResponse, timerFire, processQueue, payloadOf]
    have hfold :
        deliverAll ⟨(hd :: tl).map Prod.fst, true, some c, true, t, ws, ev⟩
            (o :: (hd :: tl).map Prod.snd) =
          deliverAll ⟨tl.map Prod.fst, true, some hd.1, true, t, ws ++ [hd.1.command],
              ev ++ [payloadOf t c o]⟩ (hd.2 :: tl.map Prod.snd) := by
      simp only [deliverAll, List.map_cons, List.foldl_cons]
      rw [← deliverAll, ← deliverAll, hstep]
    rw [hfold]
    obtain ⟨h1, h2, h3⟩ := ih hd.1 hd.2 (ws ++ [hd.1.command]) (ev ++ [payloadOf t c o])
    refine ⟨?_, h2, h3⟩
    rw [h1]
    simp [payloadsOf]

/-- C2: for any batch of commands enqueued on one serial channel and any
    schedule in which each command either receives a decoded line before the
    window or times out (the armed timer fires), every command's callback is
    invoked exactly once, in enqueue order — with the line, or with the
    timeout Error carrying the configured response window — and the channel
    finishes idle with its queue drained (a timed-out command does not stop
    the remaining queue from processing). -/
theorem serial_fifo_exactly_once (t : Nat) (cps : List (SCommand × Option String)) :
    (deliverAll (sendAll (serialInit t) (cps.map Prod.fst)) (cps.map Prod.snd)).events =
      payloadsOf t cps ∧
    (deliverAll (sendAll (serialInit t) (cps.map Prod.fst)) (cps.map Prod.snd)).busy = false ∧
    (deliverAll (sendAll (serialInit t) (cps.map Prod.fst)) (cps.map Prod.snd)).queue = [] := by
  cases cps with
  | nil => simp [sendAll, deliverAll, serialInit, payloadsOf]
  | cons p ps =>
    have h0 : serialSend (serialInit t) p.1 =
        ⟨[], true, some p.1, true, t, [p.1.command], []⟩ := by
      simp [serialSend, serialInit, processQueue]
    have h1 : sendAll (serialInit t) ((p :: ps).map Prod.fst) =
        ⟨ps.map Prod.fst, true, some p.1, true, t, [p.1.command], []⟩ := by
      have : sendAll (serialInit t) (p.1 :: ps.map Prod.fst) =
          sendAll (serialSend (serialInit t) p.1) (ps.map Prod.fst) := by
        simp [sendAll, List.foldl_cons]
      rw [List.map_cons, this, h0, sendAll_busy_append _ _ rfl]
      simp
    rw [h1]
    obtain ⟨h2, h3, h4⟩ := serial_drain_run t ps p.1 p.2 [p.1.command] []
    have h5 : (p :: ps).map Prod.snd = p.2 :: ps.map Prod.snd := by simp
    rw [h5]
    refine ⟨?_, h3, h4⟩
    rw [h2]
    simp [payloadsOf]

/-- Behaviour of one `if (done()) callback(responses)` step, by whether the
    decremented countdown lands exactly on zero. -/
theorem fireIfDone_spec (s : DispatchState) :
    (s.counter - 1 ≠ 0 → fireIfDone s = { s with counter := s.counter - 1 }) ∧
    (s.counter - 1 = 0 → fireIfDone s =
      { s with counter := s.counter - 1, fires := s.fires ++ [s.responses] }) := by
  constructor
  · intro h
    have hb : (s.counter - 1 == 0) = false := by
      simpa using h
    simp [fireIfDone, doneStep, hb]
  · intro h
    have hb : (s.counter - 1 == 0) = true := by
      simpa using h
    simp [fireIfDone, doneStep, hb, h]

/-- A resolution that is not a serial error pushes exactly one outcome and
    then runs the done step once. -/
theorem resolveLeaf_good (s : DispatchState) (r : Resolution) (h : goodRes r = true) :
    ∃ rs : ResponseSet,
      rs.serial.length + rs.lirc.length =
        s.responses.serial.length + s.responses.lirc.length + 1 ∧
      resolveLeaf s r = fireIfDone { s with responses := rs } := by
  rcases r with ⟨iface, res⟩ | ⟨name, res⟩
  · rcases res with e | d
    · simp [goodRes] at h
    · refine ⟨{ s.responses with serial := s.responses.serial ++ [(iface, .ok d)] }, ?_, rfl⟩
      simp
      omega
  · refine ⟨{ s.responses with lirc := s.responses.lirc ++ [(name, res)] }, ?_, rfl⟩
    simp
    omega

/-- Resolving fewer good leaves than the countdown requires never fires the
    callback: the countdown just decreases and the outcomes accumulate. -/
theorem resolve_under (arr : List Resolution) :
    ∀ (s : DispatchState), arr.all goodRes = true → (arr.length : Int) < s.counter →
      (arr.foldl resolveLeaf s).fires = s.fires ∧
      (arr.foldl resolveLeaf s).counter = s.counter - arr.length ∧
      (arr.foldl resolveLeaf s).responses.serial.length +
          (arr.foldl resolveLeaf s).responses.lirc.length =
        s.responses.serial.length + s.responses.lirc.length + arr.length := by
  induction arr with
  | nil =>
    intro s _ _
    simp
  | cons r rest ih =>
    intro s hg hlt
    have hg' : goodRes r = true ∧ rest.all goodRes = true := by
      simp only [List.all_cons, Bool.and_eq_true] at hg
      exact hg
    have hne : s.counter - 1 ≠ 0 := by
      simp only [List.length_cons] at hlt
      push_cast at hlt
      omega
    obtain ⟨rs, hrs, hres⟩ := resolveLeaf_good s r hg'.1
    have hstep : resolveLeaf s r = (⟨s.counter - 1, rs, s.fires⟩ : DispatchState) := by
      rw [hres]
      exact (fireIfDone_spec ⟨s.counter, rs, s.fires⟩).1 hne
    rw [List.foldl_cons, hstep]
    have hlt' : ((rest.length : Int)) < (⟨s.counter - 1, rs, s.fires⟩ : DispatchState).counter := by
      show ((rest.length : Int)) < s.counter - 1
      simp only [List.length_cons] at hlt
      push_cast at hlt
      omega
    obtain ⟨h1, h2, h3⟩ := ih _ hg'.2 hlt'
    refine ⟨h1, ?_, ?_⟩
    · rw [h2]
      show s.counter - 1 - (rest.length : Int) = s.counter - ((r :: rest).length : Int)
      simp only [List.length_cons]
      push_cast
      ring
    · rw [h3]
      show rs.serial.length + rs.lirc.length + rest.length =
        s.responses.serial.length + s.responses.lirc.length + (r :: rest).length
      simp only [List.length_cons]
      omega

/-- Resolving exactly as many good leaves as the countdown fires the
    callback exactly once, at the last resolution, with an outcome set
    holding one entry per resolved leaf. -/
theorem resolve_exact (arr : List Resolution) :
    ∀ (s : DispatchState), arr.all goodRes = true → s.counter = (arr.length : Int) →
      0 < arr.length →
      ∃ final : ResponseSet,
        (arr.foldl resolveLeaf s).fires = s.fires ++ [final] ∧
        final.serial.length + final.lirc.length =
          s.responses.serial.length + s.responses.lirc.length + arr.length ∧
        (arr.foldl resolveLeaf s).counter = 0 := by
  induction arr with
  | nil =>
    intro s _ _ hpos
    simp at hpos
  | cons r rest ih =>
    intro s hg hcnt _
    have hg' : goodRes r = true ∧ rest.all goodRes = true := by
      simp only [List.all_cons, Bool.and_eq_true] at hg
      exact hg
    obtain ⟨rs, hrs, hres⟩ := resolveLeaf_good s r hg'.1
    cases rest with
    | nil =>
      have hone : s.counter - 1 = 0 := by
        simp only [List.length_cons, List.length_nil] at hcnt
        push_cast at hcnt
        omega
      have hstep : resolveLeaf s r =
          (⟨s.counter - 1, rs, s.fires ++ [rs]⟩ : DispatchState) := by
        rw [hres]
        exact (fireIfDone_spec ⟨s.counter, rs, s.fires⟩).2 hone
      refine ⟨rs, ?_, ?_, ?_⟩
      · rw [List.foldl_cons, hstep]
        simp
      · simpa using hrs
      · rw [List.foldl_cons, hstep]
        show s.counter - 1 = 0
        exact hone
    | cons r2 rest2 =>
      have hne : s.counter - 1 ≠ 0 := by
        simp only [List.length_cons] at hcnt
        push_cast at hcnt
        omega
      have hstep : resolveLeaf s r = (⟨s.counter - 1, rs, s.fires⟩ : DispatchState) := by
        rw [hres]
        exact (fireIfDone_spec ⟨s.counter, rs, s.fires⟩).1 hne
      have hcnt' : (⟨s.counter - 1, rs, s.fires⟩ : DispatchState).counter =
          (((r2 :: rest2).length : Nat) : Int) := by
        show s.counter - 1 = (((r2 :: rest2).length : Nat) : Int)
        simp only [List.length_cons] at hcnt ⊢
        push_cast at hcnt ⊢
        omega
      obtain ⟨final, h1, h2, h3⟩ := ih _ hg'.2 hcnt' (by simp)
      refine ⟨final, ?_, ?_, ?_⟩
      · rw [List.foldl_cons, hstep]
        simpa using h1
      · rw [h2]
        show rs.serial.length + rs.lirc.length + (r2 :: rest2).length =
          s.responses.serial.length + s.responses.lirc.length + (r :: r2 :: rest2).length
        simp only [List.length_cons]
        omega
      · rw [List.foldl_cons, hstep]
        exact h3

/-- The dispatch pass over serial groups that all target configured
    protocols leaves the dispatcher state untouched and emits one pending
    leaf per raw command. -/
theorem dispatchSerialGroups_known (sn : List String) :
    ∀ (gs : List SerialGroup) (s : DispatchState),
      (gs.all fun sg => sn.contains sg.interface) = true →
      (dispatchSerialGroups sn gs s).1 = s ∧
      (dispatchSerialGroups sn gs s).2.length = (gs.map fun sg => sg.commands.length).sum := by
  intro gs
  induction gs with
  | nil =>
    intro s _
    simp [dispatchSerialGroups]
  | cons g gs ih =>
    intro s h
    have h' : sn.contains g.interface = true ∧ (gs.all fun sg => sn.contains sg.interface) = true := by
      simp only [List.all_cons, Bool.and_eq_true] at h
      exact h
    obtain ⟨h1, h2⟩ := ih s h'.2
    have hm : g.interface ∈ sn := by
      simpa using h'.1
    simp [dispatchSerialGroups, hm, h1, h2]

/-- The dispatch pass over lirc leaves emits one pending leaf per leaf with
    a truthy configured name; the leaves with a falsy or unknown name are
    exactly the difference. -/
theorem dispatchLircGroups_length (ln : List String) :
    ∀ (gs : List LircGroup),
      (dispatchLircGroups ln gs).length +
        (gs.filter (fun lg => lg.name == "" || !(ln.contains lg.name))).length = gs.length := by
  intro gs
  induction gs with
  | nil => rfl
  | cons g gs ih =>
    have hd : dispatchLircGroups ln (g :: gs) =
        (if g.name != "" && ln.contains g.name then
          Pending.lircLeaf g.name g.keys :: dispatchLircGroups ln gs
        else dispatchLircGroups ln gs) := rfl
    rw [hd, List.filter_cons]
    by_cases he : g.name = "" <;> by_cases hc : g.name ∈ ln <;>
      simp [he, hc] at ih ⊢ <;> omega

/-- The dispatch pass over a whole action whose serial groups all target
    configured protocols: the dispatcher state is untouched, and the pending
    leaves plus the falsy-or-unknown lirc leaves account for every counted
    leaf. -/
theorem dispatchAll_serialKnown (sn ln : List String) :
    ∀ (cmds : List ActionCommand) (s : DispatchState),
      allSerialKnown sn cmds = true →
      (dispatchAll sn ln cmds s).1 = s ∧
      (dispatchAll sn ln cmds s).2.length + badLircCount ln cmds = countLeaves cmds := by
  intro cmds
  induction cmds with
  | nil =>
    intro s _
    simp [dispatchAll, badLircCount, countLeaves]
  | cons c cmds ih =>
    intro s h
    have h' : (c.serial.all fun sg => sn.contains sg.interface) = true ∧
        allSerialKnown sn cmds = true := by
      simp only [allSerialKnown, List.all_cons, Bool.and_eq_true] at h ⊢
      exact h
    obtain ⟨hs1, hs2⟩ := dispatchSerialGroups_known sn c.serial s h'.1
    obtain ⟨hi1, hi2⟩ := ih (dispatchSerialGroups sn c.serial s).1 h'.2
    have hl := dispatchLircGroups_length ln c.lirc
    rw [hs1] at hi1 hi2
    constructor
    · show (dispatchAll sn ln cmds (dispatchCommand sn ln c s).1).1 = s
      rw [show (dispatchCommand sn ln c s).1 = s from hs1]
      exact hi1
    · show ((dispatchCommand sn ln c s).2 ++
          (dispatchAll sn ln cmds (dispatchCommand sn ln c s).1).2).length +
          badLircCount ln (c :: cmds) = countLeaves (c :: cmds)
      rw [show (dispatchCommand sn ln c s).1 = s from hs1,
        show (dispatchCommand sn ln c s).2 =
          (dispatchSerialGroups sn c.serial s).2 ++ dispatchLircGroups ln c.lirc from rfl]
      simp only [List.length_append, badLircCount, countLeaves, groupLeafCount]
      omega

/-- An action whose lirc leaves all carry truthy configured names has no
    counted-but-skipped lirc leaf. -/
theorem badLircCount_zero (ln : List String) :
    ∀ (cmds : List ActionCommand), allLircKnown ln cmds = true →
      badLircCount ln cmds = 0 := by
  intro cmds
  induction cmds with
  | nil =>
    intro _
    rfl
  | cons c cmds ih =>
    intro h
    have h' : (c.lirc.all fun lg => lg.name != "" && ln.contains lg.name) = true ∧
        allLircKnown ln cmds = true := by
      simp only [allLircKnown, List.all_cons, Bool.and_eq_true] at h ⊢
      exact h
    have hz : (c.lirc.filter (fun lg => lg.name == "" || !(ln.contains lg.name))).length = 0 := by
      rw [List.length_eq_zero, List.filter_eq_nil_iff]
      intro lg hlg
      have hmem := List.all_eq_true.mp h'.1 lg hlg
      simp only [Bool.and_eq_true] at hmem
      have hne : lg.name ≠ "" := by
        simpa using hmem.1
      have hin : lg.name ∈ ln := by
        simpa using hmem.2
      simp [hne, hin]
    show (c.lirc.filter (fun lg => lg.name == "" || !(ln.contains lg.name))).length +
      badLircCount ln cmds = 0
    rw [hz, ih h'.2]

/-- C1 (counterexample): dispatching an action with zero leaf operations
    never invokes the completion callback at all — no done() call ever
    happens, so the claimed immediate empty-outcome completion does not
    occur. -/
theorem dispatch_zero_leaves_no_callback :
    (tvSendCommandsRun [] [] [] []).1.fires = [] ∧ countLeaves [] = 0 := by decide

/-- C1 (amended): for an action with at least one leaf, all of whose leaves
    target configured channels, under any arrival order in which every
    serial leaf resolves with data (a serial Error double-decrements the
    countdown) and every lirc leaf resolves either way, the completion
    callback fires exactly once, only at the last leaf resolution (every
    proper prefix of the schedule leaves it unfired), with an outcome set
    holding exactly one entry per leaf; an action with zero leaves never
    fires the callback. -/
theorem dispatch_completion_amended (sn ln : List String) (cmds : List ActionCommand)
    (arr : List Resolution)
    (hs : allSerialKnown sn cmds = true) (hl : allLircKnown ln cmds = true)
    (hg : arr.all goodRes = true) (hlen : arr.length = countLeaves cmds)
    (hpos : 0 < countLeaves cmds) :
    (tvSendCommandsRun sn ln cmds arr).2.length = countLeaves cmds ∧
    (∃ final : ResponseSet,
      (tvSendCommandsRun sn ln cmds arr).1.fires = [final] ∧
      final.serial.length + final.lirc.length = countLeaves cmds) ∧
    (∀ k, k < arr.length →
      ((arr.take k).foldl resolveLeaf (dispatchPhase sn ln cmds).1).fires = []) := by
  obtain ⟨hd1, hd2⟩ :=
    dispatchAll_serialKnown sn ln cmds ⟨(countLeaves cmds : Int), ⟨[], []⟩, []⟩ hs
  have hbad : badLircCount ln cmds = 0 := badLircCount_zero ln cmds hl
  have hphase1 : (dispatchPhase sn ln cmds).1 =
      ⟨(countLeaves cmds : Int), ⟨[], []⟩, []⟩ := hd1
  have hphase2 : (dispatchPhase sn ln cmds).2.length = countLeaves cmds := by
    have h2 := hd2
    rw [hbad] at h2
    simpa using h2
  refine ⟨hphase2, ?_, ?_⟩
  · obtain ⟨final, hf1, hf2, _⟩ := resolve_exact arr (dispatchPhase sn ln cmds).1 hg
      (by
        rw [hphase1]
        show (countLeaves cmds : Int) = (arr.length : Int)
        rw [hlen])
      (by omega)
    refine ⟨final, ?_, ?_⟩
    · show (arr.foldl resolveLeaf (dispatchPhase sn ln cmds).1).fires = [final]
      rw [hf1, hphase1]
      simp
    · rw [hf2, hphase1, hlen]
      simp
  · intro k hk
    have htake : (arr.take k).all goodRes = true := by
      rw [List.all_eq_true] at hg ⊢
      intro x hx
      exact hg x (List.mem_of_mem_take hx)
    have hlt : ((arr.take k).length : Int) < (dispatchPhase sn ln cmds).1.counter := by
      rw [hphase1]
      show ((arr.take k).length : Int) < (countLeaves cmds : Int)
      have hklen : (arr.take k).length = k := by
        rw [List.length_take]
        omega
      rw [hklen]
      exact_mod_cast (by omega : k < countLeaves cmds)
    exact (resolve_under (arr.take k) (dispatchPhase sn ln cmds).1 htake hlt).1.trans
      (by rw [hphase1])

/-- C1 (witness): a two-leaf action across a serial and a lirc channel
    produces two pending leaves, matching its leaf count. -/
theorem dispatch_completion_amended_witness :
    (tvSendCommandsRun ["s"] ["l"] [⟨[⟨"s", ["P"]⟩], [⟨"l", ["K"]⟩]⟩]
        [.serial "s" (.ok "OK"), .lirc "l" none]).2.length =
      countLeaves [⟨[⟨"s", ["P"]⟩], [⟨"l", ["K"]⟩]⟩] :=
  (dispatch_completion_amended ["s"] ["l"] [⟨[⟨"s", ["P"]⟩], [⟨"l", ["K"]⟩]⟩]
    [.serial "s" (.ok "OK"), .lirc "l" none] (by decide) (by decide) (by decide) (by decide)
    (by decide)).1

/-- C6 (counterexample): an action whose only leaf names an unknown lirc
    protocol is counted (countdown 1) but its branch only logs: no
    Configuration-Error outcome is pushed, the countdown is never
    decremented, no leaf is pending, and the completion callback can never
    fire. -/
theorem dispatch_unknown_lirc_counterexample :
    (tvSendCommandsRun [] [] [⟨[], [⟨"missing", ["KEY"]⟩]⟩] []).1.fires = [] ∧
    (tvSendCommandsRun [] [] [⟨[], [⟨"missing", ["KEY"]⟩]⟩] []).1.counter = 1 ∧
    (tvSendCommandsRun [] [] [⟨[], [⟨"missing", ["KEY"]⟩]⟩] []).1.responses = ⟨[], []⟩ ∧
    (tvSendCommandsRun [] [] [⟨[], [⟨"missing", ["KEY"]⟩]⟩] []).2 = [] ∧
    countLeaves [⟨[], [⟨"missing", ["KEY"]⟩]⟩] = 1 := by decide

/-- C6 (amended): in an action whose serial leaves all target configured
    interfaces, a lirc leaf with a falsy or unknown name is counted up
    front but only logged — it yields no outcome and never decrements the
    countdown — so even after every known leaf resolves, the completion
    callback has not fired, and the outcome set holds exactly the known
    leaves' outcomes (no Configuration-Error entry). -/
theorem dispatch_unknown_channel_amended (sn ln : List String) (cmds : List ActionCommand)
    (arr : List Resolution)
    (hs : allSerialKnown sn cmds = true)
    (hbad : 0 < badLircCount ln cmds)
    (hg : arr.all goodRes = true)
    (hlen : arr.length = (dispatchPhase sn ln cmds).2.length) :
    (arr.foldl resolveLeaf (dispatchPhase sn ln cmds).1).fires = [] ∧
    (arr.foldl resolveLeaf (dispatchPhase sn ln cmds).1).responses.serial.length +
        (arr.foldl resolveLeaf (dispatchPhase sn ln cmds).1).responses.lirc.length =
      arr.length := by
  obtain ⟨hd1, hd2⟩ :=
    dispatchAll_serialKnown sn ln cmds ⟨(countLeaves cmds : Int), ⟨[], []⟩, []⟩ hs
  have hphase1 : (dispatchPhase sn ln cmds).1 =
      ⟨(countLeaves cmds : Int), ⟨[], []⟩, []⟩ := hd1
  have hplen : (dispatchPhase sn ln cmds).2.length + badLircCount ln cmds =
      countLeaves cmds := hd2
  have hlt : ((arr.length : Int)) < (dispatchPhase sn ln cmds).1.counter := by
    rw [hphase1]
    show ((arr.length : Int)) < (countLeaves cmds : Int)
    exact_mod_cast (by omega : arr.length < countLeaves cmds)
  obtain ⟨h1, h2, h3⟩ := resolve_under arr (dispatchPhase sn ln cmds).1 hg hlt
  refine ⟨?_, ?_⟩
  · rw [h1, hphase1]
  · rw [h3, hphase1]
    simp

/-- C6 (amended, witness): an action with a single unknown-name lirc leaf
    and no arrivals leaves the callback unfired. -/
theorem dispatch_unknown_channel_amended_witness :
    (([] : List Resolution).foldl resolveLeaf
      (dispatchPhase [] [] [⟨[], [⟨"x", ["K"]⟩]⟩]).1).fires = [] :=
  (dispatch_unknown_channel_amended [] [] [⟨[], [⟨"x", ["K"]⟩]⟩] [] (by decide) (by decide)
    (by decide) (by decide)).1

/-- In the empty string nothing but the empty pattern is found. -/
theorem jsIncludes_empty (pat : String) (h : pat ≠ "") : jsIncludes "" pat = false := by
  rcases pat with ⟨l⟩
  cases l with
  | nil => exact absurd rfl h
  | cons c cs => rfl

/-- A validity scan whose expectations all reference present currentInput
    keys never throws. -/
theorem evalValid_ok_of_present (cim : List (String × String)) :
    ∀ (exps : List (String × String)),
      (exps.all fun e => (lookupJs cim e.1).isSome) = true →
      ∃ b, evalValid cim exps = .ok b := by
  intro exps
  induction exps with
  | nil =>
    intro _
    exact ⟨true, rfl⟩
  | cons e rest ih =>
    intro h
    have h' : (lookupJs cim e.1).isSome = true ∧
        (rest.all fun e => (lookupJs cim e.1).isSome) = true := by
      simp only [List.all_cons, Bool.and_eq_true] at h
      exact h
    obtain ⟨s, hs⟩ := Option.isSome_iff_exists.mp h'.1
    obtain ⟨b, hb⟩ := ih h'.2
    exact ⟨jsIncludes s e.2 && b, by simp [evalValid, hs, hb]⟩

/-- A scan containing an unsatisfied expectation never reports valid. -/
theorem evalValid_false_of_unsat (cim : List (String × String)) :
    ∀ (exps : List (String × String)) (e : String × String), e ∈ exps →
      ∀ s, lookupJs cim e.1 = some s → jsIncludes s e.2 = false →
      ∀ b, evalValid cim exps = .ok b → b = false := by
  intro exps
  induction exps with
  | nil =>
    intro e he
    simp at he
  | cons hd rest ih =>
    intro e he s hsome hinc b hb
    rcases List.mem_cons.mp he with heq | hmem
    · subst heq
      rcases hrest : evalValid cim rest with x | v
      · simp [evalValid, hsome, hrest] at hb
      · simp [evalValid, hsome, hrest, hinc] at hb
        exact hb
    · rcases hhd : lookupJs cim hd.1 with _ | s'
      · simp [evalValid, hhd] at hb
      · rcases hrest : evalValid cim rest with x | v
        · simp [evalValid, hhd, hrest] at hb
        · have hv := ih e hmem s hsome hinc v hrest
          simp [evalValid, hhd, hrest, hv] at hb
          exact hb

/-- A resolution in which every referenced key is present yields a valid-
    input list without throwing. -/
theorem collectValidInputs_ok_of_present (cim : List (String × String)) :
    ∀ (inputs : List InputCfg) (k : Nat),
      allRefsPresent cim inputs = true →
      ∃ l, collectValidInputs cim inputs k = .ok l := by
  intro inputs
  induction inputs with
  | nil =>
    intro k _
    exact ⟨[], rfl⟩
  | cons inp rest ih =>
    intro k h
    have h' : ((inp.getStatusSerial.getD []).all fun e => (lookupJs cim e.1).isSome) = true ∧
        allRefsPresent cim rest = true := by
      simp only [allRefsPresent, List.all_cons, Bool.and_eq_true] at h ⊢
      exact h
    obtain ⟨l, hl⟩ := ih (k + 1) h'.2
    rcases hgs : inp.getStatusSerial with _ | exps
    · exact ⟨l, by simp [collectValidInputs, hgs, hl]⟩
    · have hexps : (exps.all fun e => (lookupJs cim e.1).isSome) = true := by
        have := h'.1
        rw [hgs] at this
        simpa using this
      obtain ⟨b, hb⟩ := evalValid_ok_of_present cim exps hexps
      cases b
      · exact ⟨l, by simp [collectValidInputs, hgs, hb, hl]⟩
      · exact ⟨k :: l, by simp [collectValidInputs, hgs, hb, hl]⟩

/-- Every index reported valid comes from an input whose expectation scan
    reported true. -/
theorem collectValidInputs_mem (cim : List (String × String)) :
    ∀ (inputs : List InputCfg) (k : Nat) (l : List Nat),
      collectValidInputs cim inputs k = .ok l →
      ∀ i, i ∈ l → k ≤ i ∧
        ∃ inp exps, inputs.get? (i - k) = some inp ∧
          inp.getStatusSerial = some exps ∧ evalValid cim exps = .ok true := by
  intro inputs
  induction inputs with
  | nil =>
    intro k l h i hil
    simp only [collectValidInputs] at h
    cases h
    simp at hil
  | cons inp rest ih =>
    intro k l h i hil
    rcases hgs : inp.getStatusSerial with _ | exps
    · rw [show collectValidInputs cim (inp :: rest) k = collectValidInputs cim rest (k + 1) from
        by simp [collectValidInputs, hgs]] at h
      obtain ⟨hk, inp', exps', hget, hgs', hval⟩ := ih (k + 1) l h i hil
      refine ⟨by omega, inp', exps', ?_, hgs', hval⟩
      rw [show i - k = (i - (k + 1)) + 1 from by omega]
      simpa using hget
    · rcases hval : evalValid cim exps with x | b
      · simp [collectValidInputs, hgs, hval] at h
      · cases b
        · rw [show collectValidInputs cim (inp :: rest) k =
              collectValidInputs cim rest (k + 1) from
            by simp [collectValidInputs, hgs, hval]] at h
          obtain ⟨hk, inp', exps', hget, hgs', hval'⟩ := ih (k + 1) l h i hil
          refine ⟨by omega, inp', exps', ?_, hgs', hval'⟩
          rw [show i - k = (i - (k + 1)) + 1 from by omega]
          simpa using hget
        · rcases hrest : collectValidInputs cim rest (k + 1) with x | l'
          · simp [collectValidInputs, hgs, hval, hrest] at h
          · have hl : k :: l' = l := by
              have := h
              simp [collectValidInputs, hgs, hval, hrest] at this
              exact this
            subst hl
            rcases List.mem_cons.mp hil with hik | hmem
            · subst hik
              refine ⟨le_refl _, inp, exps, ?_, hgs, hval⟩
              simp
            · obtain ⟨hk, inp', exps', hget, hgs', hval'⟩ := ih (k + 1) l' hrest i hmem
              refine ⟨by omega, inp', exps', ?_, hgs', hval'⟩
              rw [show i - k = (i - (k + 1)) + 1 from by omega]
              simpa using hget

/-- C7 (counterexample): an input declaring an expectation on channel "X"
    while only channel "Y" was queried makes the resolver throw the
    uncaught TypeError (reading .includes of undefined) instead of marking
    the input invalid or degrading to the cached value. -/
theorem inputResolver_typeerror_counterexample :
    getActiveIdentifierResolve [⟨some [("X", "A")]⟩] [("Y", .data "A")] 0 =
      .error () := by decide

/-- C7 (amended): when every declared expectation references a channel that
    was actually queried (hence has a currentInput entry, the empty string
    for an errored or timed-out query), the resolver never throws — it
    returns a value through the callback — and any input having an
    expectation with a non-empty expected substring against an
    empty-string entry is evaluated invalid (its index is excluded from the
    valid set). An expectation on a never-queried channel instead raises an
    uncaught TypeError. -/
theorem inputResolver_amended (inputs : List InputCfg) (results : List (String × Reply))
    (stateInput : Nat)
    (href : allRefsPresent (currentInputMap results) inputs = true) :
    (∃ v, getActiveIdentifierResolve inputs results stateInput = .ok v) ∧
    (∀ l, collectValidInputs (currentInputMap results) inputs 0 = .ok l →
      ∀ i inp exps, inputs.get? i = some inp → inp.getStatusSerial = some exps →
        (∃ e, e ∈ exps ∧ lookupJs (currentInputMap results) e.1 = some "" ∧ e.2 ≠ "") →
        i ∉ l) := by
  constructor
  · obtain ⟨l, hl⟩ := collectValidInputs_ok_of_present (currentInputMap results) inputs 0 href
    exact ⟨resolveInputChoice l stateInput, by simp [getActiveIdentifierResolve, hl]⟩
  · intro l hcol i inp exps hget hgs hbad hmem
    obtain ⟨e, he, hlook, hne⟩ := hbad
    obtain ⟨_, inp', exps', hget', hgs', hval⟩ :=
      collectValidInputs_mem (currentInputMap results) inputs 0 l hcol i hmem
    rw [Nat.sub_zero, hget] at hget'
    cases hget'
    rw [hgs] at hgs'
    cases hgs'
    have hfalse := evalValid_false_of_unsat (currentInputMap results) exps e he ""
      hlook (jsIncludes_empty e.2 hne) true hval
    cases hfalse

/-- C7 (amended, witness): a single input expecting "NOPE" on channel "A"
    whose query timed out resolves without a fault. -/
theorem inputResolver_amended_witness :
    ∃ v, getActiveIdentifierResolve [⟨some [("A", "NOPE")]⟩] [("A", .err "timeout")] 0 =
      .ok v :=
  (inputResolver_amended [⟨some [("A", "NOPE")]⟩] [("A", .err "timeout")] 0 (by decide)).1
